import Mathlib

/-!
Shallow embedding of the `RateLimiter` class of `src/Kronos.py` from the
Kronos.py repository, together with theorems settling the specification
claims about it.

Modelling conventions:
* A `datetime` instant is a rational number of seconds (`ℚ`); subtraction of
  instants gives a duration in seconds, and `timedelta(seconds=T)` is the
  rational `(T : ℚ)`.
* `self._limit` and `self._time_period` are Python `int`s, modelled as `ℤ`.
  The constructor performs no validation, so any integer values may occur.
* The threading / multiprocessing distinction (`isinstance(self._timestamps,
  list)`) is recorded in a boolean field `multiprocessing_mode` set at
  construction: `False` means `self._timestamps` is a plain `list`
  (threading branch), `True` means it is a `Manager().list()`
  (multiprocessing branch).
* `acquire` runs entirely under `self._lock`; one call is modelled as a pure
  state transformation taking the instant `now` read at the top of the
  locked region.  `time.sleep(wait_time)` has no effect on the ledger, so a
  call is fully described by the slept duration, the successor state and the
  returned value.
* The `Logger` collaborator only formats and prints text; it is out of
  scope and omitted (its calls have no effect on the limiter state).
-/

/-- State of a `RateLimiter` instance: the configuration fields
`self._limit` and `self._time_period`, the storage mode chosen by the
`multiprocessing_mode` argument, and the shared ledger `self._timestamps`. -/
structure RateLimiter where
  limit : ℤ
  time_period : ℤ
  multiprocessing_mode : Bool
  timestamps : List ℚ
  deriving Repr, DecidableEq

/-- `RateLimiter.__init__(self, logger, limit, time_period,
multiprocessing_mode=False)`: stores `limit` and `time_period` unchanged,
allocates an empty ledger (and a fresh lock, implicit in the model), and
logs one info line.  The source contains no validation and no `raise`:
every argument combination constructs a limiter. -/
def RateLimiter.init (limit : ℤ) (time_period : ℤ)
    (multiprocessing_mode : Bool := false) : RateLimiter :=
  { limit := limit
    time_period := time_period
    multiprocessing_mode := multiprocessing_mode
    timestamps := [] }

/-- Threading-mode pruning, the `isinstance(self._timestamps, list)` branch:
`self._timestamps = [ts for ts in self._timestamps if now - ts <
timedelta(seconds=self._time_period)]`. -/
def pruneThreading (time_period : ℤ) (now : ℚ) (timestamps : List ℚ) :
    List ℚ :=
  timestamps.filter (fun ts => now - ts < (time_period : ℚ))

/-- The `expired_indices` list built by the multiprocessing branch: the loop
`for i, ts in enumerate(self._timestamps)` appends `i` whenever
`now - ts >= timedelta(seconds=self._time_period)`, so the result is the
index part of the enumeration filtered by that test. -/
def expiredIndices (time_period : ℤ) (now : ℚ) (timestamps : List ℚ) :
    List ℕ :=
  (timestamps.enum.filter
      (fun p => (time_period : ℚ) ≤ now - p.2)).map Prod.fst

/-- Multiprocessing-mode pruning, the `Manager().list()` branch: collect
`expired_indices`, then `for i in sorted(expired_indices, reverse=True):
self._timestamps.pop(i)` — index-based removal in descending index order. -/
def pruneMultiprocessing (time_period : ℤ) (now : ℚ) (timestamps : List ℚ) :
    List ℚ :=
  ((expiredIndices time_period now timestamps).mergeSort
      (fun i j => decide (j ≤ i))).foldl
    (fun l i => l.eraseIdx i) timestamps

/-- The ledger right after the pruning step of `acquire`, dispatching on the
storage mode exactly as `isinstance(self._timestamps, list)` does. -/
def RateLimiter.prunedLedger (rl : RateLimiter) (now : ℚ) : List ℚ :=
  if rl.multiprocessing_mode then
    pruneMultiprocessing rl.time_period now rl.timestamps
  else
    pruneThreading rl.time_period now rl.timestamps

/-- Observable outcome of one `acquire()` call: the total duration passed to
`time.sleep` (`0` when no sleep happened), the limiter state at `return`,
and the returned value. -/
structure AcquireResult where
  sleep_time : ℚ
  state : RateLimiter
  result : Bool
  deriving Repr, DecidableEq

/-- `RateLimiter.acquire(self)`, executed under `self._lock` with `now =
datetime.now()` read at the top: prune the ledger; if `len(self._timestamps)
>= self._limit` and the ledger is non-empty, compute `wait_time = (oldest +
timedelta(seconds=self._time_period) - now).total_seconds()` from `oldest =
self._timestamps[0]` and sleep for it when it is positive; finally append
the captured `now` (not a fresh clock reading) and `return True`. -/
def RateLimiter.acquire (rl : RateLimiter) (now : ℚ) : AcquireResult :=
  let pruned := rl.prunedLedger now
  let sleep_time : ℚ :=
    if rl.limit ≤ (pruned.length : ℤ) then
      match pruned with
      | [] => 0
      | oldest :: _ =>
        let wait_time := oldest + (rl.time_period : ℚ) - now
        if 0 < wait_time then wait_time else 0
    else 0
  { sleep_time := sleep_time
    state := { rl with timestamps := pruned ++ [now] }
    result := true }

theorem expiredIndices_nil (T : ℤ) (now : ℚ) : expiredIndices T now [] = [] := rfl

theorem expiredIndices_cons (T : ℤ) (now x : ℚ) (xs : List ℚ) :
    expiredIndices T now (x :: xs) =
      (if (T : ℚ) ≤ now - x then [0] else []) ++
        (expiredIndices T now xs).map (· + 1) := by
  simp only [expiredIndices, List.enum, List.enumFrom_cons' 0 x xs]
  by_cases h : (T : ℚ) ≤ now - x
  · rw [List.filter_cons, if_pos (by simpa using h)]
    simp [h, List.filter_map, List.map_map, Function.comp_def]
  · rw [List.filter_cons, if_neg (by simpa using h)]
    simp [h, List.filter_map, List.map_map, Function.comp_def]

theorem expiredIndices_pairwise_lt (T : ℤ) (now : ℚ) :
    ∀ timestamps : List ℚ, (expiredIndices T now timestamps).Pairwise (· < ·) := by
  intro l
  induction l with
  | nil => simp [expiredIndices_nil]
  | cons x xs ih =>
    rw [expiredIndices_cons, List.pairwise_append]
    refine ⟨?_, ?_, ?_⟩
    · split <;> simp
    · exact (List.pairwise_map).mpr (ih.imp (fun hab => by omega))
    · intro a ha b hb
      have hb1 : ∃ c, c ∈ expiredIndices T now xs ∧ c + 1 = b := by
        simpa using List.mem_map.mp hb
      have ha0 : a = 0 := by split at ha <;> simp_all
      omega

theorem mergeSort_descending_eq_reverse (E : List ℕ)
    (h : E.Pairwise (· < ·)) :
    E.mergeSort (fun i j => decide (j ≤ i)) = E.reverse := by
  haveI : IsAntisymm ℕ (fun i j => j ≤ i) :=
    ⟨fun a b h1 h2 => Nat.le_antisymm h2 h1⟩
  refine List.eq_of_perm_of_sorted (r := fun i j => j ≤ i)
    ((List.mergeSort_perm E _).trans E.reverse_perm.symm) ?_ ?_
  · have hs := @List.sorted_mergeSort ℕ (fun i j => decide (j ≤ i))
      (fun a b c hab hbc => by
        have h1 := of_decide_eq_true hab
        have h2 := of_decide_eq_true hbc
        exact decide_eq_true (Nat.le_trans h2 h1))
      (fun a b => by
        rcases Nat.le_total b a with h | h <;> simp [h])
      E
    exact hs.imp (fun hab => of_decide_eq_true hab)
  · rw [List.Sorted, List.pairwise_reverse]
    exact h.imp (fun hab => by omega)

theorem foldl_eraseIdx_map_succ {α : Type} (is : List ℕ) :
    ∀ (x : α) (xs : List α),
      (is.map (· + 1)).foldl (fun l i => l.eraseIdx i) (x :: xs) =
        x :: is.foldl (fun l i => l.eraseIdx i) xs := by
  induction is with
  | nil => intro x xs; rfl
  | cons i rest ih =>
    intro x xs
    simp only [List.map_cons, List.foldl_cons, List.eraseIdx_cons_succ]
    exact ih x (xs.eraseIdx i)

theorem foldl_eraseIdx_reverse_expired_eq_filter (T : ℤ) (now : ℚ) :
    ∀ timestamps : List ℚ,
      ((expiredIndices T now timestamps).reverse).foldl
          (fun l i => l.eraseIdx i) timestamps =
        timestamps.filter (fun ts => now - ts < (T : ℚ)) := by
  intro l
  induction l with
  | nil => rfl
  | cons x xs ih =>
    rw [expiredIndices_cons, List.reverse_append, List.foldl_append]
    by_cases h : (T : ℚ) ≤ now - x
    · rw [if_pos h]
      have hshift :
          ((expiredIndices T now xs).map (· + 1)).reverse.foldl
              (fun l i => l.eraseIdx i) (x :: xs) =
            x :: (expiredIndices T now xs).reverse.foldl
              (fun l i => l.eraseIdx i) xs := by
        rw [← List.map_reverse]
        exact foldl_eraseIdx_map_succ _ x xs
      rw [hshift, ih]
      simp only [List.reverse_singleton, List.foldl_cons, List.foldl_nil,
        List.eraseIdx_cons_zero]
      rw [List.filter_cons_of_neg (by simpa using not_lt.mpr (by linarith))]
    · rw [if_neg h]
      have hshift :
          ((expiredIndices T now xs).map (· + 1)).reverse.foldl
              (fun l i => l.eraseIdx i) (x :: xs) =
            x :: (expiredIndices T now xs).reverse.foldl
              (fun l i => l.eraseIdx i) xs := by
        rw [← List.map_reverse]
        exact foldl_eraseIdx_map_succ _ x xs
      rw [List.reverse_nil, List.foldl_nil, hshift, ih]
      rw [List.filter_cons_of_pos (by simpa using lt_of_not_le (fun hc => h (by linarith)))]

theorem pruneMultiprocessing_eq_filter (T : ℤ) (now : ℚ) (timestamps : List ℚ) :
    pruneMultiprocessing T now timestamps =
      timestamps.filter (fun ts => now - ts < (T : ℚ)) := by
  rw [pruneMultiprocessing,
    mergeSort_descending_eq_reverse _ (expiredIndices_pairwise_lt T now timestamps)]
  exact foldl_eraseIdx_reverse_expired_eq_filter T now timestamps

theorem prunedLedger_eq_filter (rl : RateLimiter) (now : ℚ) :
    rl.prunedLedger now =
      rl.timestamps.filter (fun ts => now - ts < (rl.time_period : ℚ)) := by
  cases h : rl.multiprocessing_mode <;>
    simp [RateLimiter.prunedLedger, h, pruneThreading,
      pruneMultiprocessing_eq_filter]

/-- C8: for every ledger contents and every call instant `now`, the
single-process pruning procedure (list-comprehension filter) and the
cross-process pruning procedure (collecting expired indices and deleting
them in reverse index order) produce the same resulting ledger. -/
theorem kronos_C8_prune_modes_agree (time_period : ℤ) (now : ℚ)
    (timestamps : List ℚ) :
    pruneMultiprocessing time_period now timestamps =
      pruneThreading time_period now timestamps := by
  rw [pruneMultiprocessing_eq_filter]
  rfl

/-- C4: in either storage mode, the pruning step of `acquire` removes from
the ledger exactly the entries `ts` with `now - ts >= time_period`: the
post-prune ledger is the original one filtered to the entries with
`now - ts < time_period`, however many expired entries accumulated. -/
theorem kronos_C4_pruning_removes_exactly_expired (rl : RateLimiter)
    (now : ℚ) :
    rl.prunedLedger now =
      rl.timestamps.filter (fun ts => ¬ ((rl.time_period : ℚ) ≤ now - ts)) := by
  rw [prunedLedger_eq_filter]
  exact List.filter_congr (fun ts _ => by simp [not_le])

/-- C3: when the post-prune ledger holds at least `limit` entries and its
oldest remaining entry (index 0) is `t0`, the call sleeps for exactly
`max 0 (t0 + time_period - now)` seconds, the sleep happening only when the
computed wait is strictly positive. -/
theorem kronos_C3_wait_duration (rl : RateLimiter) (now t0 : ℚ)
    (rest : List ℚ) (hp : rl.prunedLedger now = t0 :: rest)
    (hl : rl.limit ≤ ((t0 :: rest).length : ℤ)) :
    (rl.acquire now).sleep_time = max 0 (t0 + (rl.time_period : ℚ) - now) := by
  show (if rl.limit ≤ ((rl.prunedLedger now).length : ℤ) then
      match rl.prunedLedger now with
      | [] => 0
      | oldest :: _ =>
        let wait_time := oldest + (rl.time_period : ℚ) - now
        if 0 < wait_time then wait_time else 0
    else 0) = max 0 (t0 + (rl.time_period : ℚ) - now)
  rw [hp, if_pos hl]
  show (if 0 < t0 + (rl.time_period : ℚ) - now then
      t0 + (rl.time_period : ℚ) - now else 0) =
    max 0 (t0 + (rl.time_period : ℚ) - now)
  rcases lt_or_le 0 (t0 + (rl.time_period : ℚ) - now) with h | h
  · rw [if_pos h]
    exact (max_eq_right h.le).symm
  · rw [if_neg (not_lt.mpr h)]
    exact (max_eq_left h).symm

theorem kronos_C3_wait_duration_witness :
    (RateLimiter.mk 1 2 false [0]).prunedLedger 1 = 0 :: [] ∧
    (RateLimiter.mk 1 2 false [0]).limit ≤ (((0 : ℚ) :: []).length : ℤ) ∧
    ((RateLimiter.mk 1 2 false [0]).acquire 1).sleep_time =
      max 0 (0 + ((RateLimiter.mk 1 2 false [0]).time_period : ℚ) - 1) := by
  have hp : (RateLimiter.mk 1 2 false [0]).prunedLedger 1 = 0 :: [] := by
    norm_num [RateLimiter.prunedLedger, pruneThreading]
  exact ⟨hp, by norm_num,
    kronos_C3_wait_duration (RateLimiter.mk 1 2 false [0]) 1 0 [] hp (by norm_num)⟩

/-- C5: when the post-prune ledger holds strictly fewer than `limit`
entries — including when enough previously recorded entries have expired by
the time of the check — the call performs no sleep and returns `True`
immediately. -/
theorem kronos_C5_no_unnecessary_wait (rl : RateLimiter) (now : ℚ)
    (h : ((rl.prunedLedger now).length : ℤ) < rl.limit) :
    (rl.acquire now).sleep_time = 0 ∧ (rl.acquire now).result = true := by
  constructor
  · show (if rl.limit ≤ ((rl.prunedLedger now).length : ℤ) then
        match rl.prunedLedger now with
        | [] => (0 : ℚ)
        | oldest :: _ =>
          let wait_time := oldest + (rl.time_period : ℚ) - now
          if 0 < wait_time then wait_time else 0
      else 0) = (0 : ℚ)
    rw [if_neg (not_le.mpr h)]
  · rfl

theorem kronos_C5_no_unnecessary_wait_witness :
    (((RateLimiter.mk 1 1 false [0]).prunedLedger 5).length : ℤ) <
      (RateLimiter.mk 1 1 false [0]).limit ∧
    ((RateLimiter.mk 1 1 false [0]).acquire 5).sleep_time = 0 ∧
    ((RateLimiter.mk 1 1 false [0]).acquire 5).result = true := by
  have h : (((RateLimiter.mk 1 1 false [0]).prunedLedger 5).length : ℤ) <
      (RateLimiter.mk 1 1 false [0]).limit := by
    norm_num [RateLimiter.prunedLedger, pruneThreading]
  exact ⟨h, kronos_C5_no_unnecessary_wait (RateLimiter.mk 1 1 false [0]) 5 h⟩

/-- C6: the timestamp appended to the ledger is the instant `now` captured
at the start of the call, before any sleep — the post-prune ledger with the
captured `now` appended — so the last recorded entry is `now` on every call,
including calls that slept. -/
theorem kronos_C6_records_pre_sleep_timestamp (rl : RateLimiter) (now : ℚ) :
    (rl.acquire now).state.timestamps = rl.prunedLedger now ++ [now] ∧
    ((rl.acquire now).state.timestamps).getLast? = some now := by
  refine ⟨rfl, ?_⟩
  show (rl.prunedLedger now ++ [now]).getLast? = some now
  simp

/-- C7: `acquire` is total and never signals an error: it always returns
`True`, leaves the configuration fields untouched, and its only effect on
the ledger beyond pruning is appending exactly one timestamp, making the
final ledger one entry longer than the post-prune ledger. -/
theorem kronos_C7_always_succeeds_appends_one (rl : RateLimiter) (now : ℚ) :
    (rl.acquire now).result = true ∧
    (rl.acquire now).state.limit = rl.limit ∧
    (rl.acquire now).state.time_period = rl.time_period ∧
    (rl.acquire now).state.multiprocessing_mode = rl.multiprocessing_mode ∧
    (rl.acquire now).state.timestamps = rl.prunedLedger now ++ [now] ∧
    ((rl.acquire now).state.timestamps).length =
      (rl.prunedLedger now).length + 1 := by
  refine ⟨rfl, rfl, rfl, rfl, rfl, ?_⟩
  show (rl.prunedLedger now ++ [now]).length = (rl.prunedLedger now).length + 1
  simp

/-- C9: when the ledger is in ascending (oldest-first) order and every
recorded entry is at or before the current call instant — which the
non-decreasing clock guarantees across serialized calls — `acquire`
preserves ascending order, and the entry at index 0 of the resulting ledger
is its earliest entry. -/
theorem kronos_C9_ledger_stays_sorted (rl : RateLimiter) (now : ℚ)
    (hs : rl.timestamps.Pairwise (· ≤ ·))
    (hb : ∀ t ∈ rl.timestamps, t ≤ now) :
    (rl.acquire now).state.timestamps.Pairwise (· ≤ ·) ∧
    ∀ m, ((rl.acquire now).state.timestamps).head? = some m →
      ∀ t ∈ (rl.acquire now).state.timestamps, m ≤ t := by
  have hnew : (rl.acquire now).state.timestamps =
      rl.prunedLedger now ++ [now] := rfl
  have hsub : List.Sublist (rl.prunedLedger now) rl.timestamps := by
    rw [prunedLedger_eq_filter]
    exact List.filter_sublist rl.timestamps
  have hP : (rl.acquire now).state.timestamps.Pairwise (· ≤ ·) := by
    rw [hnew, List.pairwise_append]
    refine ⟨hs.sublist hsub, by simp, ?_⟩
    intro a ha b hb'
    have hb0 : b = now := by simpa using hb'
    exact hb0 ▸ hb a (hsub.mem ha)
  refine ⟨hP, ?_⟩
  intro m hm t ht
  rcases hcase : (rl.acquire now).state.timestamps with _ | ⟨a, l⟩
  · rw [hcase] at hm
    simp at hm
  · rw [hcase] at hm ht
    have ham : a = m := by simpa using hm
    rw [hcase] at hP
    rcases List.mem_cons.mp ht with h | h
    · exact ham ▸ h ▸ le_refl a
    · exact ham ▸ (List.pairwise_cons.mp hP).1 t h

theorem kronos_C9_ledger_stays_sorted_witness :
    ([1, 2] : List ℚ).Pairwise (· ≤ ·) ∧
    (∀ t ∈ ([1, 2] : List ℚ), t ≤ (3 : ℚ)) ∧
    ((RateLimiter.mk 2 5 false [1, 2]).acquire 3).state.timestamps.Pairwise
      (· ≤ ·) := by
  have hs : ([1, 2] : List ℚ).Pairwise (· ≤ ·) := by norm_num
  have hb : ∀ t ∈ ([1, 2] : List ℚ), t ≤ (3 : ℚ) := by
    intro t ht
    rcases List.mem_cons.mp ht with h | h
    · rw [h]; norm_num
    · rcases List.mem_cons.mp h with h2 | h2
      · rw [h2]; norm_num
      · simp at h2
  exact ⟨hs, hb,
    (kronos_C9_ledger_stays_sorted (RateLimiter.mk 2 5 false [1, 2]) 3 hs hb).1⟩

/-- C10: `acquire` never reads the ledger out of bounds: the index-0 read is
guarded by the non-emptiness check, so even on a limiter constructed with
`limit <= 0` a call on an empty ledger enters the over-limit branch, skips
the wait, returns `True`, and appends exactly one timestamp. -/
theorem kronos_C10_empty_ledger_guard (rl : RateLimiter) (now : ℚ)
    (hl : rl.limit ≤ 0) (he : rl.timestamps = []) :
    rl.limit ≤ (((rl.prunedLedger now).length : ℤ)) ∧
    (rl.acquire now).sleep_time = 0 ∧
    (rl.acquire now).result = true ∧
    (rl.acquire now).state.timestamps = [now] := by
  have hpr : rl.prunedLedger now = [] := by
    rw [prunedLedger_eq_filter, he]
    rfl
  have hcond : rl.limit ≤ (((rl.prunedLedger now).length : ℤ)) := by
    rw [hpr]
    simpa using hl
  refine ⟨hcond, ?_, rfl, ?_⟩
  · show (if rl.limit ≤ ((rl.prunedLedger now).length : ℤ) then
        match rl.prunedLedger now with
        | [] => (0 : ℚ)
        | oldest :: _ =>
          let wait_time := oldest + (rl.time_period : ℚ) - now
          if 0 < wait_time then wait_time else 0
      else 0) = (0 : ℚ)
    rw [if_pos hcond, hpr]
  · show rl.prunedLedger now ++ [now] = [now]
    rw [hpr]
    rfl

theorem kronos_C10_empty_ledger_guard_witness :
    (RateLimiter.init 0 1 false).limit ≤ 0 ∧
    (RateLimiter.init 0 1 false).timestamps = [] ∧
    ((RateLimiter.init 0 1 false).acquire 7).sleep_time = 0 ∧
    ((RateLimiter.init 0 1 false).acquire 7).result = true ∧
    ((RateLimiter.init 0 1 false).acquire 7).state.timestamps = [7] := by
  have h := kronos_C10_empty_ledger_guard (RateLimiter.init 0 1 false) 7
    (by norm_num [RateLimiter.init]) rfl
  exact ⟨by norm_num [RateLimiter.init], rfl, h.2.1, h.2.2.1, h.2.2.2⟩

/-- C2 counterexample: the claim asserts that construction with
`limit <= 0` or `time_period <= 0` raises `InvalidConfiguration` and creates
no usable limiter.  The source constructor contains no validation and no
raise statement at all: `RateLimiter.__init__` with `limit = 0` (and
likewise `limit = -5`, `time_period = -1`) returns a limiter that stores the
given values unchanged, and a subsequent `acquire()` on it succeeds. -/
theorem kronos_C2_construction_never_fails_counterexample :
    RateLimiter.init 0 1 false =
      { limit := 0, time_period := 1, multiprocessing_mode := false,
        timestamps := [] } ∧
    ((RateLimiter.init 0 1 false).acquire 5).result = true ∧
    ((RateLimiter.init 0 1 false).acquire 5).state.timestamps = [5] ∧
    (RateLimiter.init (-5) (-1) false).limit = -5 ∧
    (RateLimiter.init (-5) (-1) false).time_period = -1 := by
  refine ⟨rfl, rfl, ?_, rfl, rfl⟩
  show (RateLimiter.init 0 1 false).prunedLedger 5 ++ [5] = [5]
  rfl

/-- C2 amended: construction never fails and never clamps: for every
`limit`, `time_period` and mode — including `limit <= 0` and
`time_period <= 0` — the constructor stores the given values unchanged,
produces an empty ledger, and the resulting limiter is usable:
`acquire()` on it returns `True`. -/
theorem kronos_C2_construction_accepts_all_values (limit time_period : ℤ)
    (mode : Bool) (now : ℚ) :
    (RateLimiter.init limit time_period mode).limit = limit ∧
    (RateLimiter.init limit time_period mode).time_period = time_period ∧
    (RateLimiter.init limit time_period mode).multiprocessing_mode = mode ∧
    (RateLimiter.init limit time_period mode).timestamps = [] ∧
    ((RateLimiter.init limit time_period mode).acquire now).result = true :=
  ⟨rfl, rfl, rfl, rfl, rfl⟩

/-- C1: the admission bound fails on the code.  With `limit = 1`,
`time_period = 1` and lock-serialized calls whose clock reads are at
`t = 0`, `t = 1/2` and `t = 1` — a feasible schedule, since each later
read is at or after the instant at which the previous call finished
sleeping (first two conjuncts) — each waiting call sleeps until the window
reopens but then records its pre-sleep instant, leaving the ledger
`[1/2, 1]`: two recorded admission timestamps only half a second apart,
so a sliding window of width `1` contains `2 > limit` admissions.  The
root cause is that `acquire` appends the `now` captured before the sleep
rather than the admission instant. -/
theorem kronos_C1_admission_bound_violated :
    ((RateLimiter.init 1 1 false).acquire 0).sleep_time + 0 ≤ 1/2 ∧
    (((RateLimiter.init 1 1 false).acquire 0).state.acquire
        (1/2)).sleep_time + 1/2 ≤ 1 ∧
    ((((RateLimiter.init 1 1 false).acquire 0).state.acquire
        (1/2)).state.acquire 1).sleep_time = 1/2 ∧
    ((((RateLimiter.init 1 1 false).acquire 0).state.acquire
        (1/2)).state.acquire 1).state.timestamps = [1/2, 1] ∧
    ((1 : ℚ) - 1/2 < 1) := by
  norm_num [RateLimiter.init, RateLimiter.acquire, RateLimiter.prunedLedger,
    pruneThreading]

